import Mathlib

/-!
Verification development for the rule-hit-count enablement tool
(`rhc_enable.go` and its near-duplicate revision).

The tool is a sequential workflow of HTTP calls: it checks/enables a report
template, resolves user label input into a firewall-scope payload, compares the
current firewall scope settings with the desired payload by shape only, applies
the payload when the shapes differ, and finally (on request) provisions the
change.

The embedding below models the workflow as pure functions.  HTTP traffic is
modelled by a stream of responses consumed one per issued call, and stdin by a
stream of strings consumed one per prompt (reading past the end yields the
empty string, matching a reader at EOF whose error is ignored by the Go code).
JSON decoding of a response body is modelled by per-type `Option` views on the
response.  Go's `strings.TrimSpace` / `strings.ToLower` / `strings.EqualFold`
are modelled on the ASCII fragment, which covers every string the workflow
compares.
-/

/-- ASCII whitespace recognizer, modelling the characters `strings.TrimSpace`
removes for the inputs this tool sees. -/
def isSpaceChar (c : Char) : Bool := c == ' ' || c == '\t' || c == '\n' || c == '\r'

/-- Drop leading and trailing whitespace from a character list. -/
def trimChars (l : List Char) : List Char :=
  ((l.dropWhile isSpaceChar).reverse.dropWhile isSpaceChar).reverse

/-- Model of Go `strings.TrimSpace` (ASCII fragment). -/
def strTrim (s : String) : String := String.mk (trimChars s.data)

/-- Model of Go `strings.ToLower` (ASCII fragment). -/
def strLower (s : String) : String := String.mk (s.data.map Char.toLower)

/-- Model of Go `strings.EqualFold` (ASCII fragment): case-insensitive
equality. -/
def equalFold (a b : String) : Bool := strLower a == strLower b

/-- `PCEConfig` from `rhc_enable.go`: the five credential/endpoint fields. -/
structure PCEConfig where
  apiKey : String
  apiSecret : String
  fqdn : String
  port : String
  orgID : String
deriving DecidableEq

/-- `ReportStatus` from `rhc_enable.go`: decoded report-template status. -/
structure ReportStatus where
  enabled : Bool
deriving DecidableEq

/-- `Label` from `rhc_enable.go`: one entry of the PCE label catalog. -/
structure Label where
  href : String
  value : String
deriving DecidableEq

/-- One element of an inner scope list.  In Go the inner lists have type
`[]interface{}`: an element is either a label reference
`{"label":{"href":h}}` (the only kind this tool constructs) or some other
JSON value, modelled by `rawItem`. -/
inductive ScopeItem where
  | labelRef (href : String)
  | rawItem
deriving DecidableEq

/-- `FirewallSettings` from `rhc_enable.go`: the decoded
`rule_hit_count_enabled_scopes` list of lists. -/
structure FirewallSettings where
  scopes : List (List ScopeItem)
deriving DecidableEq

/-- An HTTP response as seen by the workflow: the status code plus the result
of decoding the body as each of the three JSON shapes the tool parses
(`none` = that decoding fails). -/
structure HttpResp where
  status : Nat
  asReport : Option ReportStatus
  asLabels : Option (List Label)
  asSettings : Option FirewallSettings
deriving DecidableEq

/-- The endpoints the workflow can call, in the order the steps issue them. -/
inductive ApiCall where
  | getReport
  | putReport
  | getLabels
  | getFirewall
  | putFirewall
  | postProvision
deriving DecidableEq

/-- One issued HTTP call paired with the status code its response carried. -/
structure Ev where
  call : ApiCall
  status : Nat
deriving DecidableEq

/-- External world of a run: the pending HTTP responses (consumed one per
issued call) and the pending stdin lines (consumed one per prompt). -/
structure St where
  resps : List HttpResp
  inputs : List String
deriving DecidableEq

/-- Consume the next HTTP response.  An exhausted stream models a transport
error: Go's `makeAPICall` then returns status `0` with a non-nil error and an
undecodable body, and every caller treats that exactly like a non-2xx
status. -/
def takeResp (st : St) : HttpResp × St :=
  match st.resps with
  | [] => (⟨0, none, none, none⟩, st)
  | r :: rs => (r, ⟨rs, st.inputs⟩)

/-- Consume the next stdin line.  At EOF `bufio.ReadString` yields the empty
string and an error the Go code ignores. -/
def takeInput (st : St) : String × St :=
  match st.inputs with
  | [] => ("", st)
  | i :: is => (i, ⟨st.resps, is⟩)

/-- The status-code check every call site performs:
`statusCode < 200 || statusCode >= 300` rejected, i.e. success iff 2xx. -/
def is2xx (n : Nat) : Bool := 200 ≤ n && n < 300

/-- The linear scan inside `checkLabelHref`: first catalog label whose
whitespace-trimmed value equals the input case-insensitively
(`strings.EqualFold(strings.TrimSpace(label.Value), labelValue)`). -/
def findLabelHref (labels : List Label) (labelValue : String) : Option String :=
  (labels.find? (fun l => equalFold (strTrim l.value) labelValue)).map Label.href

/-- `checkLabelHref` from `rhc_enable.go`, with the labels GET response made
explicit: `none` collapses the three error returns (non-2xx fetch, JSON parse
failure, label not found), all of which the caller handles identically by
re-prompting. -/
def checkLabelHref (r : HttpResp) (labelValue : String) : Option String :=
  if is2xx r.status = false then none
  else
    match r.asLabels with
    | none => none
    | some labels => findLabelHref labels labelValue

/-- `checkAndEnableReport` from `rhc_enable.go`.  Returns the issued calls,
the remaining world, and `some msg` when the function returns an error.
The `<nil>` stands for Go's rendering of the nil transport error in the
`fmt.Errorf` verb `%v`. -/
def checkAndEnableReport (st : St) : List Ev × St × Option String :=
  let (r, st1) := takeResp st
  let ev : Ev := ⟨ApiCall.getReport, r.status⟩
  if is2xx r.status = false then
    ([ev], st1, some ("failed to fetch report status, HTTP Code: " ++ toString r.status
      ++ ", Error: <nil>"))
  else
    match r.asReport with
    | none => ([ev], st1, some "failed to parse report status: invalid JSON")
    | some rs =>
      if rs.enabled then ([ev], st1, none)
      else
        let (p, st2) := takeResp st1
        let ev2 : Ev := ⟨ApiCall.putReport, p.status⟩
        if is2xx p.status = false then
          ([ev, ev2], st2, some ("failed to enable report, HTTP Code: " ++ toString p.status
            ++ ", Error: <nil>"))
        else ([ev, ev2], st2, none)

/-- The interactive label loop of `main` (`for { ... }` over `checkLabelHref`).
Each iteration issues one labels GET; on any `checkLabelHref` error the loop
prints it and re-prompts, on success it appends the scope entry
`{"label":{"href":href}}` and continues only on a `y` answer (lower-cased,
trimmed).  `fuel` bounds the number of iterations; `none` models a run that
is still looping when the fuel ends (the Go loop has no exit on repeated
failure). -/
def labelLoop (fuel : Nat) (st : St) (labelInput : String) (acc : List ScopeItem) :
    List Ev × St × Option (List ScopeItem) :=
  match fuel with
  | 0 => ([], st, none)
  | fuel' + 1 =>
    let (r, st1) := takeResp st
    let ev : Ev := ⟨ApiCall.getLabels, r.status⟩
    match checkLabelHref r labelInput with
    | none =>
      let (next, st2) := takeInput st1
      let (tr, st3, res) := labelLoop fuel' st2 (strTrim next) acc
      (ev :: tr, st3, res)
    | some href =>
      let acc1 := acc ++ [ScopeItem.labelRef href]
      let (more, st2) := takeInput st1
      if strLower (strTrim more) == "y" then
        let (next, st3) := takeInput st2
        let (tr, st4, res) := labelLoop fuel' st3 (strTrim next) acc1
        (ev :: tr, st4, res)
      else ([ev], st2, some acc1)

/-- The scope-resolution part of `main`: read the first label prompt, trim it,
and build the desired `rule_hit_count_enabled_scopes` value — `[]` for
"disable" (case-insensitive), `[[]]` for "all" (case-insensitive), otherwise
one outer element holding the labels collected by `labelLoop`.  `none` models
a label loop that never terminated within `fuel`. -/
def scopeStage (fuel : Nat) (st : St) : List Ev × St × Option FirewallSettings :=
  let (raw, st1) := takeInput st
  let labelInput := strTrim raw
  if equalFold labelInput "disable" then ([], st1, some ⟨[]⟩)
  else if equalFold labelInput "all" then ([], st1, some ⟨[[]]⟩)
  else
    let (tr, st2, res) := labelLoop fuel st1 labelInput []
    match res with
    | none => (tr, st2, none)
    | some scopes => (tr, st2, some ⟨[scopes]⟩)

/-- The settings comparison in `main`: outer lengths equal, and for each index
of the current outer list the inner lengths equal (never the contents). -/
def sameShape (cur des : List (List ScopeItem)) : Bool :=
  cur.length == des.length &&
  (List.range cur.length).all (fun i => (cur.getD i []).length == (des.getD i []).length)

/-- Result of the settings-reconciliation part of `main`. -/
inductive ReconOut where
  | skipped
  | applied
  | fatalErr (msg : String)
deriving DecidableEq

/-- The settings-reconciliation part of `main`: GET the current firewall
settings, compare shapes via `sameShape`, and PUT the desired payload only
when the shapes differ.  `skipped` corresponds to printing
"... No changes necessary." and returning from `main`. -/
def reconcileStage (desired : FirewallSettings) (st : St) : List Ev × St × ReconOut :=
  let (r, st1) := takeResp st
  let ev : Ev := ⟨ApiCall.getFirewall, r.status⟩
  if is2xx r.status = false then
    ([ev], st1, ReconOut.fatalErr ("Failed to fetch current firewall settings, HTTP Code: "
      ++ toString r.status ++ ", Error: <nil>"))
  else
    match r.asSettings with
    | none => ([ev], st1, ReconOut.fatalErr "Failed to parse current firewall settings: invalid JSON")
    | some cur =>
      if sameShape cur.scopes desired.scopes then ([ev], st1, ReconOut.skipped)
      else
        let (p, st2) := takeResp st1
        let ev2 : Ev := ⟨ApiCall.putFirewall, p.status⟩
        if is2xx p.status = false then
          ([ev, ev2], st2, ReconOut.fatalErr ("Failed to enable rule hit count, HTTP Code: "
            ++ toString p.status ++ ", Error: <nil>"))
        else ([ev, ev2], st2, ReconOut.applied)

/-- The provisioning part of `main`: prompt for confirmation and POST the
provisioning request iff the trimmed answer lower-cases to "y" or is empty.
`some msg` models `log.Fatalf` on a non-2xx POST. -/
def provisionStage (st : St) : List Ev × St × Option String :=
  let (raw, st1) := takeInput st
  let conf := strTrim raw
  if strLower conf == "y" || conf == "" then
    let (r, st2) := takeResp st1
    let ev : Ev := ⟨ApiCall.postProvision, r.status⟩
    if is2xx r.status = false then
      ([ev], st2, some ("Failed to provision changes, HTTP Code: " ++ toString r.status
        ++ ", Error: <nil>"))
    else ([ev], st2, none)
  else ([], st1, none)

/-- Outcome of a whole run of `main` (after config loading): normal
termination, `log.Fatalf`, or a label loop still running when the fuel
ends. -/
inductive Outcome where
  | ok
  | fatal (msg : String)
  | stuck
deriving DecidableEq

/-- The workflow of `main` after the configuration is loaded: report
enablement, scope resolution, settings reconciliation, optional provisioning.
Returns every issued HTTP call (with its response status) in order, and the
outcome.  A step returning an error makes the run end immediately via
`log.Fatalf`, with the report-step error wrapped as in
`log.Fatalf("Error enabling report: %v", err)`. -/
def runMain (fuel : Nat) (st : St) : List Ev × Outcome :=
  match checkAndEnableReport st with
  | (trR, _, some m) => (trR, Outcome.fatal ("Error enabling report: " ++ m))
  | (trR, st1, none) =>
    match scopeStage fuel st1 with
    | (trS, _, none) => (trR ++ trS, Outcome.stuck)
    | (trS, st2, some desired) =>
      match reconcileStage desired st2 with
      | (trF, _, ReconOut.fatalErr m) => (trR ++ (trS ++ trF), Outcome.fatal m)
      | (trF, _, ReconOut.skipped) => (trR ++ (trS ++ trF), Outcome.ok)
      | (trF, st3, ReconOut.applied) =>
        match provisionStage st3 with
        | (trP, _, some m) => (trR ++ (trS ++ (trF ++ trP)), Outcome.fatal m)
        | (trP, _, none) => (trR ++ (trS ++ (trF ++ trP)), Outcome.ok)

/-- The five interactive prompts of `loadOrCreatePCEConfig`, used to record
which fields were prompted for. -/
inductive CfgField where
  | apiKey
  | apiSecret
  | fqdn
  | port
  | orgID
deriving DecidableEq

/-- Consume the next stdin line of a plain input stream (EOF reads yield
the empty string, whose error the Go code ignores). -/
def takeInputL (ins : List String) : String × List String :=
  match ins with
  | [] => ("", [])
  | i :: is => (i, is)

/-- The "configuration file not found" branch of `loadOrCreatePCEConfig`:
prompt for all five fields in order, trimming each answer. -/
def promptAllFields (ins : List String) : PCEConfig × List CfgField × List String :=
  let (a, ins1) := takeInputL ins
  let (s, ins2) := takeInputL ins1
  let (f, ins3) := takeInputL ins2
  let (p, ins4) := takeInputL ins3
  let (o, ins5) := takeInputL ins4
  (⟨strTrim a, strTrim s, strTrim f, strTrim p, strTrim o⟩,
   [CfgField.apiKey, CfgField.apiSecret, CfgField.fqdn, CfgField.port, CfgField.orgID],
   ins5)

/-- One conditional backfill prompt of the `missing` block: prompt (and trim)
only when the field is empty.  Returns the field value, whether a prompt
happened, and the remaining input stream. -/
def fillField (v : String) (ins : List String) : String × Bool × List String :=
  if v = "" then
    let (i, ins') := takeInputL ins
    (strTrim i, true, ins')
  else (v, false, ins)

/-- The `config.X == ""` disjunction guarding the `missing` block. -/
def anyFieldMissing (c : PCEConfig) : Bool :=
  c.apiKey == "" || c.apiSecret == "" || c.fqdn == "" || c.port == "" || c.orgID == ""

/-- The `missing` block of `loadOrCreatePCEConfig`: prompt, in declaration
order, for exactly the fields that are empty. -/
def fillMissing (c : PCEConfig) (ins : List String) : PCEConfig × List CfgField × List String :=
  let (a, pa, ins1) := fillField c.apiKey ins
  let (s, ps, ins2) := fillField c.apiSecret ins1
  let (f, pf, ins3) := fillField c.fqdn ins2
  let (p, pp, ins4) := fillField c.port ins3
  let (o, po, ins5) := fillField c.orgID ins4
  (⟨a, s, f, p, o⟩,
   (if pa then [CfgField.apiKey] else []) ++ (if ps then [CfgField.apiSecret] else []) ++
   (if pf then [CfgField.fqdn] else []) ++ (if pp then [CfgField.port] else []) ++
   (if po then [CfgField.orgID] else []),
   ins5)

/-- `loadOrCreatePCEConfig` from `rhc_enable.go`.  The file system is
modelled by `fileExists` plus `fileCfg`, the result of `json.Unmarshal` on
the file contents (that error is ignored in the Go code, so a malformed or
partial file simply leaves fields empty).  Returns the final config, the
prompts issued in order, and the configs written to the file (the create
branch writes once immediately, and the `missing` block writes the merged
config again). -/
def loadOrCreatePCEConfig (fileExists : Bool) (fileCfg : PCEConfig) (ins : List String) :
    PCEConfig × List CfgField × List PCEConfig × List String :=
  let (c0, pr0, w0, ins0) :=
    if fileExists then (fileCfg, ([] : List CfgField), ([] : List PCEConfig), ins)
    else
      let (c, pr, ins') := promptAllFields ins
      (c, pr, [c], ins')
  if anyFieldMissing c0 then
    let (c1, pr1, ins1) := fillMissing c0 ins0
    (c1, pr0 ++ pr1, w0 ++ [c1], ins1)
  else (c0, pr0, w0, ins0)

/-- A successful labels GET response carrying the given catalog. -/
def catalogOkResp (catalog : List Label) : HttpResp := ⟨200, none, some catalog, none⟩

/-- The stdin lines the label loop consumes after its first label when the
user enters the given further labels, answering `y` between labels and
`decline` at the end. -/
def labelScript (ls : List String) (decline : String) : List String :=
  match ls with
  | [] => [decline]
  | l :: ls' => "y" :: l :: labelScript ls' decline

/-- An event whose failure cannot abort the run: either a labels GET (whose
errors the label loop swallows by re-prompting) or a call whose response was
2xx. -/
def benign (ev : Ev) : Bool := ev.call == ApiCall.getLabels || is2xx ev.status

/-- The outcome is a fatal abort whose message contains the decimal rendering
of the given status code. -/
def FatalNames (out : Outcome) (s : Nat) : Prop :=
  ∃ pre suf, out = Outcome.fatal (pre ++ toString s ++ suf)

/-- Trace invariant: any recorded call other than a labels GET whose response
was not 2xx is the last call of the run, and the run ends fatally with a
message naming that status code. -/
def TraceInv (tr : List Ev) (out : Outcome) : Prop :=
  ∀ l1 ev l2, tr = l1 ++ ev :: l2 → ev.call ≠ ApiCall.getLabels →
    is2xx ev.status = false → l2 = [] ∧ FatalNames out ev.status

/-! ## Helper lemmas -/

theorem sameShape_of_lengths (cur des : List (List ScopeItem))
    (hlen : cur.length = des.length)
    (hinner : ∀ i, i < cur.length → (cur.getD i []).length = (des.getD i []).length) :
    sameShape cur des = true := by
  simp only [sameShape, Bool.and_eq_true, beq_iff_eq, List.all_eq_true, List.mem_range]
  exact ⟨hlen, fun i hi => hinner i hi⟩

theorem equalFold_all_not_disable (s : String) (h : equalFold s "all" = true) :
    equalFold s "disable" = false := by
  unfold equalFold at h ⊢
  rw [show strLower s = strLower "all" from beq_iff_eq.1 h]
  decide

/-! ## C1: shape-only settings comparison -/

/-- C1: if the current `rule_hit_count_enabled_scopes` has the same outer
length as the desired one and every corresponding inner list has the same
length, the reconciliation step reports "no changes necessary" (`skipped`)
after the single settings GET and issues no PUT — whatever label hrefs the
inner lists contain. -/
theorem c1_shape_only_comparison (desired cur : FirewallSettings)
    (r : HttpResp) (restR : List HttpResp) (ins : List String)
    (h2xx : is2xx r.status = true)
    (hparse : r.asSettings = some cur)
    (hlen : cur.scopes.length = desired.scopes.length)
    (hinner : ∀ i, i < cur.scopes.length →
      (cur.scopes.getD i []).length = (desired.scopes.getD i []).length) :
    reconcileStage desired ⟨r :: restR, ins⟩
      = ([⟨ApiCall.getFirewall, r.status⟩], ⟨restR, ins⟩, ReconOut.skipped) := by
  have hshape := sameShape_of_lengths cur.scopes desired.scopes hlen hinner
  simp [reconcileStage, takeResp, h2xx, hparse, hshape]

/-- C1 witness: current outer length 2 with inner lengths [1,1] against a
desired payload of the same shape but entirely different hrefs is judged
equal and skipped. -/
theorem c1_shape_only_comparison_witness :
    reconcileStage ⟨[[ScopeItem.labelRef "/c"], [ScopeItem.labelRef "/d"]]⟩
      ⟨[⟨200, none, none, some ⟨[[ScopeItem.labelRef "/a"], [ScopeItem.labelRef "/b"]]⟩⟩], []⟩
      = ([⟨ApiCall.getFirewall, 200⟩], ⟨[], []⟩, ReconOut.skipped) :=
  c1_shape_only_comparison ⟨[[ScopeItem.labelRef "/c"], [ScopeItem.labelRef "/d"]]⟩
    ⟨[[ScopeItem.labelRef "/a"], [ScopeItem.labelRef "/b"]]⟩
    ⟨200, none, none, some ⟨[[ScopeItem.labelRef "/a"], [ScopeItem.labelRef "/b"]]⟩⟩ [] []
    (by decide) rfl rfl
    (fun i hi => by
      match i, hi with
      | 0, _ => rfl
      | 1, _ => rfl)

/-! ## C3: "disable" input -/

/-- C3: any first scope input whose trimmed value equals "disable"
case-insensitively yields the empty outer scope list and performs no label
lookup (no HTTP call, response stream untouched). -/
theorem c3_disable_empty_scopes (raw : String) (rest : List String)
    (resps : List HttpResp) (fuel : Nat)
    (h : equalFold (strTrim raw) "disable" = true) :
    scopeStage fuel ⟨resps, raw :: rest⟩ = ([], ⟨resps, rest⟩, some ⟨[]⟩) := by
  simp [scopeStage, takeInput, h]

/-- C3 witness at input "DISABLE". -/
theorem c3_disable_empty_scopes_witness :
    scopeStage 7 ⟨[], ["DISABLE"]⟩ = ([], ⟨[], []⟩, some ⟨[]⟩) :=
  c3_disable_empty_scopes "DISABLE" [] [] 7 (by decide)

/-! ## C4: "all" input -/

/-- C4: any first scope input whose trimmed value equals "all"
case-insensitively yields an outer list of length one whose single inner list
is empty, and performs no label lookup. -/
theorem c4_all_single_empty_scope (raw : String) (rest : List String)
    (resps : List HttpResp) (fuel : Nat)
    (h : equalFold (strTrim raw) "all" = true) :
    scopeStage fuel ⟨resps, raw :: rest⟩ = ([], ⟨resps, rest⟩, some ⟨[[]]⟩) := by
  have hd := equalFold_all_not_disable (strTrim raw) h
  simp [scopeStage, takeInput, h, hd]

/-- C4 witness at input "All". -/
theorem c4_all_single_empty_scope_witness :
    scopeStage 7 ⟨[], ["All"]⟩ = ([], ⟨[], []⟩, some ⟨[[]]⟩) :=
  c4_all_single_empty_scope "All" [] [] 7 (by decide)

/-! ## C5: label resolution -/

theorem find?_first_match (v : String) (target : Label) :
    ∀ (pre suf : List Label),
      (∀ l ∈ pre, equalFold (strTrim l.value) v = false) →
      equalFold (strTrim target.value) v = true →
      List.find? (fun l => equalFold (strTrim l.value) v) (pre ++ target :: suf)
        = some target := by
  intro pre
  induction pre with
  | nil =>
    intro suf _ hmatch
    exact List.find?_cons_of_pos _ hmatch
  | cons a t ih =>
    intro suf hpre hmatch
    rw [List.cons_append, List.find?_cons_of_neg _ (by simp [hpre a (List.mem_cons_self a t)]),
      ih suf (fun l hl => hpre l (List.mem_cons_of_mem a hl)) hmatch]

/-- C5 counterexample: the claim quantifies over every catalog containing
`{href:"/orgs/1/labels/5", value:"Production "}`, but an earlier label whose
trimmed value also matches "production" case-insensitively wins the linear
scan, so a catalog containing the claimed label can resolve to a different
href. -/
theorem c5_counterexample :
    checkLabelHref
      ⟨200, none, some [⟨"/orgs/1/labels/99", "production"⟩, ⟨"/orgs/1/labels/5", "Production "⟩],
       none⟩ "production"
      = some "/orgs/1/labels/99"
    ∧ ("/orgs/1/labels/99" : String) ≠ "/orgs/1/labels/5" := by
  constructor
  · rfl
  · decide

/-- C5 amended: label resolution returns the href of the FIRST catalog label
whose whitespace-trimmed value equals the user input case-insensitively: for
every successfully fetched catalog splitting as `pre ++ target :: suf` where
no label of `pre` matches and `target` matches, `checkLabelHref` returns
`target.href`. -/
theorem c5_trimmed_case_insensitive_match (pre suf : List Label) (target : Label)
    (v : String) (s : Nat) (br : Option ReportStatus) (bs : Option FirewallSettings)
    (hs : is2xx s = true)
    (hpre : ∀ l ∈ pre, equalFold (strTrim l.value) v = false)
    (hmatch : equalFold (strTrim target.value) v = true) :
    checkLabelHref ⟨s, br, some (pre ++ target :: suf), bs⟩ v = some target.href := by
  simp [checkLabelHref, hs, findLabelHref, find?_first_match v target pre suf hpre hmatch]

/-- C5 witness: the spec's example catalog — label value "Production " (note
the trailing space) resolves from user input "production". -/
theorem c5_trimmed_case_insensitive_match_witness :
    checkLabelHref ⟨200, none, some [⟨"/orgs/1/labels/5", "Production "⟩], none⟩ "production"
      = some "/orgs/1/labels/5" :=
  c5_trimmed_case_insensitive_match [] [] ⟨"/orgs/1/labels/5", "Production "⟩ "production"
    200 none none (by decide) (fun l hl => absurd hl (List.not_mem_nil l)) (by decide)

/-! ## C2: report enablement -/

/-- C2 counterexample: a GET response whose body parses to `{enabled:true}`
but whose status is 404 makes `checkAndEnableReport` return an error, against
the claim's unconditional "returns no error" for every response parsing to
`{enabled:true}`. -/
theorem c2_counterexample :
    (⟨404, some ⟨true⟩, none, none⟩ : HttpResp).asReport = some ⟨true⟩
    ∧ (checkAndEnableReport ⟨[⟨404, some ⟨true⟩, none, none⟩], []⟩).2.2 ≠ none := by
  constructor
  · rfl
  · decide

/-- C2 amended: when the report GET response is 2xx and parses to
`{enabled:false}` and the subsequent PUT response is 2xx,
`checkAndEnableReport` issues exactly one GET then one PUT and returns no
error; and when the report GET response is 2xx and parses to
`{enabled:true}`, it issues the single GET, no PUT, and returns no error. -/
theorem c2_report_enablement (r p : HttpResp) (rest : List HttpResp) (ins : List String) :
    (is2xx r.status = true → r.asReport = some ⟨false⟩ → is2xx p.status = true →
      checkAndEnableReport ⟨r :: p :: rest, ins⟩
        = ([⟨ApiCall.getReport, r.status⟩, ⟨ApiCall.putReport, p.status⟩], ⟨rest, ins⟩, none))
    ∧ (is2xx r.status = true → r.asReport = some ⟨true⟩ →
      checkAndEnableReport ⟨r :: p :: rest, ins⟩
        = ([⟨ApiCall.getReport, r.status⟩], ⟨p :: rest, ins⟩, none)) := by
  constructor
  · intro h1 h2 h3
    simp [checkAndEnableReport, takeResp, h1, h2, h3]
  · intro h1 h2
    simp [checkAndEnableReport, takeResp, h1, h2]

/-- C2 witness: a disabled report with a 204 PUT gives GET+PUT and no error;
an enabled report gives the GET alone and no error. -/
theorem c2_report_enablement_witness :
    checkAndEnableReport ⟨[⟨200, some ⟨false⟩, none, none⟩, ⟨204, none, none, none⟩], []⟩
      = ([⟨ApiCall.getReport, 200⟩, ⟨ApiCall.putReport, 204⟩], ⟨[], []⟩, none)
    ∧ checkAndEnableReport ⟨[⟨200, some ⟨true⟩, none, none⟩, ⟨500, none, none, none⟩], []⟩
      = ([⟨ApiCall.getReport, 200⟩], ⟨[⟨500, none, none, none⟩], []⟩, none) :=
  ⟨(c2_report_enablement ⟨200, some ⟨false⟩, none, none⟩ ⟨204, none, none, none⟩ [] []).1
      (by decide) rfl (by decide),
   (c2_report_enablement ⟨200, some ⟨true⟩, none, none⟩ ⟨500, none, none, none⟩ [] []).2
      (by decide) rfl⟩

/-! ## C9: backfill of a lone missing org_id -/

/-- C9: for an existing profile file whose parse has every field non-empty
except `org_id`, the loader prompts exactly once (for `org_id`), keeps the
other four fields exactly as read, and writes exactly the merged profile
back. -/
theorem c9_orgid_only_backfill (fileCfg : PCEConfig) (v : String) (rest : List String)
    (ha : fileCfg.apiKey ≠ "") (hs : fileCfg.apiSecret ≠ "") (hf : fileCfg.fqdn ≠ "")
    (hp : fileCfg.port ≠ "") (ho : fileCfg.orgID = "") :
    loadOrCreatePCEConfig true fileCfg (v :: rest)
      = (⟨fileCfg.apiKey, fileCfg.apiSecret, fileCfg.fqdn, fileCfg.port, strTrim v⟩,
         [CfgField.orgID],
         [⟨fileCfg.apiKey, fileCfg.apiSecret, fileCfg.fqdn, fileCfg.port, strTrim v⟩],
         rest) := by
  simp [loadOrCreatePCEConfig, anyFieldMissing, fillMissing, fillField, takeInputL,
    ha, hs, hf, hp, ho]

/-- C9 witness: a file with only `org_id` missing and the answer "77". -/
theorem c9_orgid_only_backfill_witness :
    loadOrCreatePCEConfig true ⟨"k", "s", "f", "p", ""⟩ ["77"]
      = (⟨"k", "s", "f", "p", "77"⟩, [CfgField.orgID], [⟨"k", "s", "f", "p", "77"⟩], []) :=
  c9_orgid_only_backfill ⟨"k", "s", "f", "p", ""⟩ "77" []
    (by decide) (by decide) (by decide) (by decide) rfl

/-! ## C10: provisioning confirmation -/

/-- C10: the provisioning POST is issued iff the trimmed confirmation answer
lower-cases to "y" or is the empty string; any other answer (e.g. "yes")
issues no POST. -/
theorem c10_provision_default_yes (st : St) :
    (∃ ev ∈ (provisionStage st).1, ev.call = ApiCall.postProvision)
      ↔ (strLower (strTrim (takeInput st).1) = "y" ∨ strTrim (takeInput st).1 = "") := by
  rcases e : takeInput st with ⟨raw, st1⟩
  by_cases hc : (strLower (strTrim raw) == "y" || strTrim raw == "") = true
  · rcases e2 : takeResp st1 with ⟨r, st2⟩
    have htr : (provisionStage st).1 = [⟨ApiCall.postProvision, r.status⟩] := by
      simp only [provisionStage, e, e2, hc, if_true]
      by_cases h2 : is2xx r.status = false <;> simp [h2]
    simp only [htr, e]
    simp only [Bool.or_eq_true, beq_iff_eq] at hc
    simp [hc]
  · have htr : (provisionStage st).1 = [] := by
      simp only [provisionStage, e]
      simp [hc]
    simp only [htr, e]
    simp only [Bool.or_eq_true, beq_iff_eq] at hc
    push_neg at hc
    simp [hc.1, hc.2]

/-! ## C7: label accumulation -/

theorem yes_answer_eq : (strLower (strTrim "y") == "y") = true := by decide

theorem is2xx_200 : is2xx 200 = true := by decide

theorem checkLabelHref_catalogOk (catalog : List Label) (v : String) :
    checkLabelHref ⟨200, none, some catalog, none⟩ v = findLabelHref catalog v := by
  simp [checkLabelHref, is2xx_200]

theorem labelLoop_collects (catalog : List Label) :
    ∀ (ls hs : List String) (fuel : Nat) (l0 h0 d : String)
      (restR : List HttpResp) (restI : List String) (acc : List ScopeItem),
      findLabelHref catalog l0 = some h0 →
      List.Forall₂ (fun l h => findLabelHref catalog (strTrim l) = some h) ls hs →
      (strLower (strTrim d) == "y") = false →
      ls.length < fuel →
      labelLoop fuel ⟨List.replicate (ls.length + 1) (catalogOkResp catalog) ++ restR,
          labelScript ls d ++ restI⟩ l0 acc
        = (List.replicate (ls.length + 1) (⟨ApiCall.getLabels, 200⟩ : Ev), ⟨restR, restI⟩,
           some (acc ++ ScopeItem.labelRef h0 :: List.map ScopeItem.labelRef hs)) := by
  intro ls
  induction ls with
  | nil =>
    intro hs fuel l0 h0 d restR restI acc hl0 hall hd hfuel
    cases hall
    match fuel, hfuel with
    | fuel' + 1, _ =>
      simp [labelLoop, takeResp, takeInput, labelScript, checkLabelHref_catalogOk,
        catalogOkResp, hl0, hd]
  | cons l ls' ih =>
    intro hs fuel l0 h0 d restR restI acc hl0 hall hd hfuel
    cases hall with
    | cons hlh htail =>
      match fuel, hfuel with
      | fuel' + 1, hfuel =>
        have ihx := ih _ fuel' (strTrim l) _ d restR restI (acc ++ [ScopeItem.labelRef h0])
          hlh htail hd (by simpa using Nat.lt_of_succ_lt_succ hfuel)
        simp only [catalogOkResp, List.replicate_succ, List.cons_append] at ihx
        simp only [List.length_cons, List.replicate_succ, List.cons_append, labelScript,
          labelLoop, takeResp, takeInput, catalogOkResp, checkLabelHref_catalogOk, hl0,
          yes_answer_eq, if_true]
        rw [ihx]
        simp

theorem c7_single_outer_scope (catalog : List Label) (raw0 d : String)
    (ls hs' : List String) (h0 : String) (fuel : Nat)
    (restR : List HttpResp) (restI : List String)
    (hnd : equalFold (strTrim raw0) "disable" = false)
    (hna : equalFold (strTrim raw0) "all" = false)
    (hl0 : findLabelHref catalog (strTrim raw0) = some h0)
    (hall : List.Forall₂ (fun l h => findLabelHref catalog (strTrim l) = some h) ls hs')
    (hd : (strLower (strTrim d) == "y") = false)
    (hfuel : ls.length < fuel) :
    scopeStage fuel ⟨List.replicate (ls.length + 1) (catalogOkResp catalog) ++ restR,
        raw0 :: (labelScript ls d ++ restI)⟩
      = (List.replicate (ls.length + 1) (⟨ApiCall.getLabels, 200⟩ : Ev), ⟨restR, restI⟩,
         some ⟨[ScopeItem.labelRef h0 :: List.map ScopeItem.labelRef hs']⟩) := by
  have hloop := labelLoop_collects catalog ls hs' fuel (strTrim raw0) h0 d restR restI []
    hl0 hall hd hfuel
  simp only [scopeStage, takeInput, hnd, hna, Bool.false_eq_true, if_false]
  simp only [hloop]
  simp

/-- C7 witness: labels "app" then "Web" (second label answered `y`, then a
`n` decline) against a two-label catalog give a single outer list holding the
two resolved refs in input order. -/
theorem c7_single_outer_scope_witness :
    scopeStage 2 ⟨List.replicate 2 (catalogOkResp [⟨"/h1", "App"⟩, ⟨"/h2", "Web "⟩]) ++ [],
        "app" :: (labelScript ["Web"] "n" ++ [])⟩
      = (List.replicate 2 (⟨ApiCall.getLabels, 200⟩ : Ev), ⟨[], []⟩,
         some ⟨[ScopeItem.labelRef "/h1" :: List.map ScopeItem.labelRef ["/h2"]]⟩) :=
  c7_single_outer_scope [⟨"/h1", "App"⟩, ⟨"/h2", "Web "⟩] "app" "n" ["Web"] ["/h2"] "/h1" 2 [] []
    (by decide) (by decide) (by decide)
    (List.Forall₂.cons (by decide) List.Forall₂.nil) (by decide) (by decide)

/-! ## C8: non-empty config fields -/

/-- C8 counterexample: with no config file and a user who answers every
prompt with an empty line (modelled by an exhausted input stream, i.e. EOF
reads), `loadOrCreatePCEConfig` returns a config whose fields are all empty —
the Go code re-prompts at most once per field and accepts the empty answer. -/
theorem c8_counterexample :
    (loadOrCreatePCEConfig false ⟨"", "", "", "", ""⟩ []).1 = ⟨"", "", "", "", ""⟩ := by
  decide

theorem fillMissing_nonempty (c : PCEConfig) (ins : List String)
    (hg : ∀ s ∈ ins, strTrim s ≠ "") (hlen : 5 ≤ ins.length) :
    (fillMissing c ins).1.apiKey ≠ "" ∧ (fillMissing c ins).1.apiSecret ≠ ""
    ∧ (fillMissing c ins).1.fqdn ≠ "" ∧ (fillMissing c ins).1.port ≠ ""
    ∧ (fillMissing c ins).1.orgID ≠ "" := by
  match ins, hlen with
  | i1 :: i2 :: i3 :: i4 :: i5 :: rest, _ =>
    have g1 : strTrim i1 ≠ "" := hg _ (by simp)
    have g2 : strTrim i2 ≠ "" := hg _ (by simp)
    have g3 : strTrim i3 ≠ "" := hg _ (by simp)
    have g4 : strTrim i4 ≠ "" := hg _ (by simp)
    have g5 : strTrim i5 ≠ "" := hg _ (by simp)
    by_cases h1 : c.apiKey = "" <;> by_cases h2 : c.apiSecret = "" <;>
      by_cases h3 : c.fqdn = "" <;> by_cases h4 : c.port = "" <;> by_cases h5 : c.orgID = "" <;>
      simp_all [fillMissing, fillField, takeInputL]

theorem promptAllFields_first5 (i1 i2 i3 i4 i5 : String) (rest : List String) :
    promptAllFields (i1 :: i2 :: i3 :: i4 :: i5 :: rest)
      = (⟨strTrim i1, strTrim i2, strTrim i3, strTrim i4, strTrim i5⟩,
         [CfgField.apiKey, CfgField.apiSecret, CfgField.fqdn, CfgField.port, CfgField.orgID],
         rest) := by
  simp [promptAllFields, takeInputL]

/-- C8 amended: the fields of the loaded config are all non-empty provided
every available stdin answer is non-empty after trimming and enough answers
are available (ten covers the worst case: five create prompts plus five
backfill prompts); with blank or exhausted answers the code accepts empty
fields, so the unconditional claim fails. -/
theorem c8_nonempty_config_fields (fe : Bool) (fileCfg : PCEConfig) (ins : List String)
    (hlen : 10 ≤ ins.length) (hg : ∀ s ∈ ins, strTrim s ≠ "") :
    (loadOrCreatePCEConfig fe fileCfg ins).1.apiKey ≠ ""
    ∧ (loadOrCreatePCEConfig fe fileCfg ins).1.apiSecret ≠ ""
    ∧ (loadOrCreatePCEConfig fe fileCfg ins).1.fqdn ≠ ""
    ∧ (loadOrCreatePCEConfig fe fileCfg ins).1.port ≠ ""
    ∧ (loadOrCreatePCEConfig fe fileCfg ins).1.orgID ≠ "" := by
  cases fe with
  | true =>
    by_cases hm : anyFieldMissing fileCfg = true
    · have h5 : 5 ≤ ins.length := by omega
      have := fillMissing_nonempty fileCfg ins hg h5
      simp only [loadOrCreatePCEConfig, if_true, hm]
      simpa using this
    · have hm' := hm
      simp only [anyFieldMissing, Bool.or_eq_true, beq_iff_eq] at hm'
      push_neg at hm'
      obtain ⟨⟨⟨⟨n1, n2⟩, n3⟩, n4⟩, n5⟩ := hm'
      simp [loadOrCreatePCEConfig, hm, n1, n2, n3, n4, n5]
  | false =>
    match ins, hlen with
    | i1 :: i2 :: i3 :: i4 :: i5 :: rest, hlen =>
      have g1 : strTrim i1 ≠ "" := hg _ (by simp)
      have g2 : strTrim i2 ≠ "" := hg _ (by simp)
      have g3 : strTrim i3 ≠ "" := hg _ (by simp)
      have g4 : strTrim i4 ≠ "" := hg _ (by simp)
      have g5 : strTrim i5 ≠ "" := hg _ (by simp)
      have hm : anyFieldMissing ⟨strTrim i1, strTrim i2, strTrim i3, strTrim i4, strTrim i5⟩
          = false := by
        simp [anyFieldMissing, g1, g2, g3, g4, g5]
      simp [loadOrCreatePCEConfig, promptAllFields_first5, hm, g1, g2, g3, g4, g5]

/-- C8 witness: absent file, ten non-blank answers. -/
theorem c8_nonempty_config_fields_witness :
    (loadOrCreatePCEConfig false ⟨"", "", "", "", ""⟩
        ["k", "s", "f", "p", "o", "k", "s", "f", "p", "o"]).1.apiKey ≠ ""
    ∧ (loadOrCreatePCEConfig false ⟨"", "", "", "", ""⟩
        ["k", "s", "f", "p", "o", "k", "s", "f", "p", "o"]).1.apiSecret ≠ ""
    ∧ (loadOrCreatePCEConfig false ⟨"", "", "", "", ""⟩
        ["k", "s", "f", "p", "o", "k", "s", "f", "p", "o"]).1.fqdn ≠ ""
    ∧ (loadOrCreatePCEConfig false ⟨"", "", "", "", ""⟩
        ["k", "s", "f", "p", "o", "k", "s", "f", "p", "o"]).1.port ≠ ""
    ∧ (loadOrCreatePCEConfig false ⟨"", "", "", "", ""⟩
        ["k", "s", "f", "p", "o", "k", "s", "f", "p", "o"]).1.orgID ≠ "" :=
  c8_nonempty_config_fields false ⟨"", "", "", "", ""⟩
    ["k", "s", "f", "p", "o", "k", "s", "f", "p", "o"] (by decide) (by decide)

/-! ## C6: fatal abort on non-2xx -/

theorem benign_contra (ev : Ev) (hb : benign ev = true) (hcall : ev.call ≠ ApiCall.getLabels)
    (hbad : is2xx ev.status = false) : False := by
  simp only [benign, Bool.or_eq_true, beq_iff_eq] at hb
  rcases hb with h | h
  · exact hcall h
  · rw [h] at hbad
    cases hbad

theorem traceInv_benign (tr : List Ev) (out : Outcome)
    (h : ∀ ev ∈ tr, benign ev = true) : TraceInv tr out := by
  intro l1 ev l2 htr hcall hbad
  have hmem : ev ∈ tr := by
    rw [htr]
    exact List.mem_append_right l1 (List.mem_cons_self ev l2)
  exact (benign_contra ev (h ev hmem) hcall hbad).elim

theorem traceInv_single (c : ApiCall) (s : Nat) (out : Outcome) (hf : FatalNames out s) :
    TraceInv [⟨c, s⟩] out := by
  intro l1 ev l2 htr hcall hbad
  match l1, htr with
  | [], htr =>
    simp only [List.nil_append, List.cons.injEq] at htr
    obtain ⟨rfl, rfl⟩ := htr
    exact ⟨rfl, hf⟩
  | b :: t, htr =>
    simp only [List.cons_append, List.cons.injEq] at htr
    exact absurd htr.2.symm (List.append_ne_nil_of_right_ne_nil t (List.cons_ne_nil ev l2))

theorem traceInv_append (tr1 tr2 : List Ev) (out : Outcome)
    (h1 : ∀ ev ∈ tr1, benign ev = true) (h2 : TraceInv tr2 out) :
    TraceInv (tr1 ++ tr2) out := by
  induction tr1 with
  | nil => simpa using h2
  | cons a t ih =>
    intro l1 ev l2 htr hcall hbad
    match l1, htr with
    | [], htr =>
      simp only [List.nil_append, List.cons_append, List.cons.injEq] at htr
      obtain ⟨rfl, -⟩ := htr
      exact (benign_contra a (h1 a (List.mem_cons_self a t)) hcall hbad).elim
    | b :: t1, htr =>
      simp only [List.cons_append, List.cons.injEq] at htr
      exact ih (fun x hx => h1 x (List.mem_cons_of_mem a hx)) t1 ev l2 htr.2 hcall hbad

theorem fatalNames_wrap (w m1 m2 : String) (s : Nat) :
    FatalNames (Outcome.fatal (w ++ (m1 ++ toString s ++ m2))) s :=
  ⟨w ++ m1, m2, by simp [String.append_assoc]⟩

theorem fatalNames_plain (m1 m2 : String) (s : Nat) :
    FatalNames (Outcome.fatal (m1 ++ toString s ++ m2)) s := ⟨m1, m2, rfl⟩

theorem report_benign_of_ok (st : St) (tr : List Ev) (st' : St)
    (h : checkAndEnableReport st = (tr, st', none)) : ∀ ev ∈ tr, benign ev = true := by
  rcases e : takeResp st with ⟨r, st1⟩
  rcases e2 : takeResp st1 with ⟨p, st2⟩
  simp only [checkAndEnableReport, e, e2] at h
  cases hb : is2xx r.status with
  | false => simp [hb] at h
  | true =>
    rcases hr : r.asReport with _ | rs
    · simp [hb, hr] at h
    · cases he : rs.enabled with
      | true =>
        simp only [hb, hr, he, if_true] at h
        simp only [Bool.true_eq_false, if_false, Prod.mk.injEq] at h
        rw [← h.1]
        intro ev hev
        simp only [List.mem_singleton] at hev
        subst hev
        simp [benign, hb]
      | false =>
        cases hb2 : is2xx p.status with
        | false => simp [hb, hr, he, hb2] at h
        | true =>
          simp only [hb, hr, he, hb2, Bool.true_eq_false, if_false, Bool.false_eq_true,
            Prod.mk.injEq] at h
          rw [← h.1]
          intro ev hev
          simp only [List.mem_cons, List.mem_singleton, List.not_mem_nil, or_false] at hev
          rcases hev with rfl | rfl
          · simp [benign, hb]
          · simp [benign, hb2]

theorem report_inv_of_fatal (st : St) (tr : List Ev) (st' : St) (m : String)
    (h : checkAndEnableReport st = (tr, st', some m)) :
    TraceInv tr (Outcome.fatal ("Error enabling report: " ++ m)) := by
  rcases e : takeResp st with ⟨r, st1⟩
  rcases e2 : takeResp st1 with ⟨p, st2⟩
  simp only [checkAndEnableReport, e, e2] at h
  cases hb : is2xx r.status with
  | false =>
    simp only [hb, if_true, Prod.mk.injEq, Option.some.injEq] at h
    rw [← h.1, ← h.2.2]
    exact traceInv_single ApiCall.getReport r.status _ (fatalNames_wrap _ _ _ r.status)
  | true =>
    rcases hr : r.asReport with _ | rs
    · simp only [hb, hr, Bool.true_eq_false, if_false, Prod.mk.injEq, Option.some.injEq] at h
      rw [← h.1]
      refine traceInv_benign _ _ ?_
      intro ev hev
      simp only [List.mem_singleton] at hev
      subst hev
      simp [benign, hb]
    · cases he : rs.enabled with
      | true => simp [hb, hr, he] at h
      | false =>
        cases hb2 : is2xx p.status with
        | true => simp [hb, hr, he, hb2] at h
        | false =>
          simp only [hb, hr, he, hb2, Bool.true_eq_false, Bool.false_eq_true, if_false,
            if_true, Prod.mk.injEq, Option.some.injEq] at h
          rw [← h.1, ← h.2.2]
          refine traceInv_append [⟨ApiCall.getReport, r.status⟩] [⟨ApiCall.putReport, p.status⟩]
            _ ?_ (traceInv_single ApiCall.putReport p.status _
              (fatalNames_wrap _ _ _ p.status))
          intro ev hev
          simp only [List.mem_singleton] at hev
          subst hev
          simp [benign, hb]

theorem labelLoop_calls (fuel : Nat) :
    ∀ (st : St) (li : String) (acc : List ScopeItem),
      ∀ ev ∈ (labelLoop fuel st li acc).1, ev.call = ApiCall.getLabels := by
  induction fuel with
  | zero => intro st li acc; simp [labelLoop]
  | succ n ih =>
    intro st li acc
    rcases e : takeResp st with ⟨r, st1⟩
    simp only [labelLoop, e]
    rcases hc : checkLabelHref r li with _ | href
    · rcases e2 : takeInput st1 with ⟨next, st2⟩
      rcases e3 : labelLoop n st2 (strTrim next) acc with ⟨tr, st3, res⟩
      simp only [e2, e3]
      intro ev hev
      simp only [List.mem_cons] at hev
      rcases hev with rfl | hev
      · rfl
      · exact ih st2 (strTrim next) acc ev (by rw [e3]; exact hev)
    · rcases e2 : takeInput st1 with ⟨more, st2⟩
      simp only [e2]
      by_cases hy : (strLower (strTrim more) == "y") = true
      · rcases e3 : takeInput st2 with ⟨next, st3⟩
        rcases e4 : labelLoop n st3 (strTrim next) (acc ++ [ScopeItem.labelRef href])
          with ⟨tr, st4, res⟩
        simp only [hy, e3, e4, if_true]
        intro ev hev
        simp only [List.mem_cons] at hev
        rcases hev with rfl | hev
        · rfl
        · exact ih st3 (strTrim next) (acc ++ [ScopeItem.labelRef href]) ev (by rw [e4]; exact hev)
      · simp only [hy]
        intro ev hev
        simp only [Bool.false_eq_true, if_false, List.mem_singleton] at hev
        subst hev
        rfl

theorem scope_calls (fuel : Nat) (st : St) :
    ∀ ev ∈ (scopeStage fuel st).1, ev.call = ApiCall.getLabels := by
  rcases e : takeInput st with ⟨raw, st1⟩
  simp only [scopeStage, e]
  by_cases h1 : equalFold (strTrim raw) "disable" = true
  · simp [h1]
  · by_cases h2 : equalFold (strTrim raw) "all" = true
    · simp [h1, h2]
    · rcases e2 : labelLoop fuel st1 (strTrim raw) [] with ⟨tr, st2, res⟩
      simp only [h1, h2, e2, if_false]
      cases res with
      | none =>
        intro ev hev
        exact labelLoop_calls fuel st1 (strTrim raw) [] ev (by rw [e2]; simpa using hev)
      | some scopes =>
        intro ev hev
        exact labelLoop_calls fuel st1 (strTrim raw) [] ev (by rw [e2]; simpa using hev)

theorem reconcile_benign_of_ok (desired : FirewallSettings) (st : St) (tr : List Ev) (st' : St)
    (ro : ReconOut) (h : reconcileStage desired st = (tr, st', ro))
    (hro : ∀ m, ro ≠ ReconOut.fatalErr m) : ∀ ev ∈ tr, benign ev = true := by
  rcases e : takeResp st with ⟨r, st1⟩
  rcases e2 : takeResp st1 with ⟨p, st2⟩
  simp only [reconcileStage, e, e2] at h
  cases hb : is2xx r.status with
  | false =>
    simp only [hb, if_true, Prod.mk.injEq] at h
    exact absurd (h.2.2).symm (hro _)
  | true =>
    rcases hr : r.asSettings with _ | cur
    · simp only [hb, hr, Bool.true_eq_false, if_false, Prod.mk.injEq] at h
      exact absurd (h.2.2).symm (hro _)
    · by_cases hsh : sameShape cur.scopes desired.scopes = true
      · simp only [hb, hr, hsh, Bool.true_eq_false, Bool.false_eq_true, if_false, if_true,
          Prod.mk.injEq] at h
        rw [← h.1]
        intro ev hev
        simp only [List.mem_singleton] at hev
        subst hev
        simp [benign, hb]
      · cases hb2 : is2xx p.status with
        | false =>
          simp only [hb, hr, hsh, hb2, Bool.true_eq_false, Bool.false_eq_true, if_false,
            if_true, Prod.mk.injEq] at h
          exact absurd (h.2.2).symm (hro _)
        | true =>
          simp only [hb, hr, hsh, hb2, Bool.true_eq_false, Bool.false_eq_true, if_false,
            if_true, Prod.mk.injEq] at h
          rw [← h.1]
          intro ev hev
          simp only [List.mem_cons, List.mem_singleton, List.not_mem_nil, or_false] at hev
          rcases hev with rfl | rfl
          · simp [benign, hb]
          · simp [benign, hb2]

theorem reconcile_inv_of_fatal (desired : FirewallSettings) (st : St) (tr : List Ev) (st' : St)
    (m : String) (h : reconcileStage desired st = (tr, st', ReconOut.fatalErr m)) :
    TraceInv tr (Outcome.fatal m) := by
  rcases e : takeResp st with ⟨r, st1⟩
  rcases e2 : takeResp st1 with ⟨p, st2⟩
  simp only [reconcileStage, e, e2] at h
  cases hb : is2xx r.status with
  | false =>
    simp only [hb, if_true, Prod.mk.injEq, ReconOut.fatalErr.injEq] at h
    rw [← h.1, ← h.2.2]
    exact traceInv_single ApiCall.getFirewall r.status _ (fatalNames_plain _ _ r.status)
  | true =>
    rcases hr : r.asSettings with _ | cur
    · simp only [hb, hr, Bool.true_eq_false, if_false, Prod.mk.injEq,
        ReconOut.fatalErr.injEq] at h
      rw [← h.1]
      refine traceInv_benign _ _ ?_
      intro ev hev
      simp only [List.mem_singleton] at hev
      subst hev
      simp [benign, hb]
    · by_cases hsh : sameShape cur.scopes desired.scopes = true
      · simp only [hb, hr, hsh, Bool.true_eq_false, Bool.false_eq_true, if_false, if_true,
          Prod.mk.injEq] at h
        exact ReconOut.noConfusion h.2.2
      · cases hb2 : is2xx p.status with
        | true =>
          simp only [hb, hr, hsh, hb2, Bool.true_eq_false, Bool.false_eq_true, if_false,
            if_true, Prod.mk.injEq] at h
          exact ReconOut.noConfusion h.2.2
        | false =>
          simp only [hb, hr, hsh, hb2, Bool.true_eq_false, Bool.false_eq_true, if_false,
            if_true, Prod.mk.injEq, ReconOut.fatalErr.injEq] at h
          rw [← h.1, ← h.2.2]
          refine traceInv_append [⟨ApiCall.getFirewall, r.status⟩]
            [⟨ApiCall.putFirewall, p.status⟩] _ ?_
            (traceInv_single ApiCall.putFirewall p.status _ (fatalNames_plain _ _ p.status))
          intro ev hev
          simp only [List.mem_singleton] at hev
          subst hev
          simp [benign, hb]

theorem provision_benign_of_ok (st : St) (tr : List Ev) (st' : St)
    (h : provisionStage st = (tr, st', none)) : ∀ ev ∈ tr, benign ev = true := by
  rcases e : takeInput st with ⟨raw, st1⟩
  rcases e2 : takeResp st1 with ⟨r, st2⟩
  simp only [provisionStage, e, e2] at h
  by_cases hc : (strLower (strTrim raw) == "y" || strTrim raw == "") = true
  · cases hb : is2xx r.status with
    | false => simp [hc, hb] at h
    | true =>
      simp only [hc, hb, Bool.true_eq_false, if_false, if_true, Prod.mk.injEq] at h
      rw [← h.1]
      intro ev hev
      simp only [List.mem_singleton] at hev
      subst hev
      simp [benign, hb]
  · simp only [hc, Bool.false_eq_true, if_false, Prod.mk.injEq] at h
    rw [← h.1]
    intro ev hev
    simp at hev

theorem provision_inv_of_fatal (st : St) (tr : List Ev) (st' : St) (m : String)
    (h : provisionStage st = (tr, st', some m)) : TraceInv tr (Outcome.fatal m) := by
  rcases e : takeInput st with ⟨raw, st1⟩
  rcases e2 : takeResp st1 with ⟨r, st2⟩
  simp only [provisionStage, e, e2] at h
  by_cases hc : (strLower (strTrim raw) == "y" || strTrim raw == "") = true
  · cases hb : is2xx r.status with
    | true => simp [hc, hb] at h
    | false =>
      simp only [hc, hb, if_true, Prod.mk.injEq, Option.some.injEq] at h
      rw [← h.1, ← h.2.2]
      exact traceInv_single ApiCall.postProvision r.status _ (fatalNames_plain _ _ r.status)
  · simp [hc] at h

theorem runMain_traceInv (fuel : Nat) (st : St) :
    TraceInv (runMain fuel st).1 (runMain fuel st).2 := by
  rcases hR : checkAndEnableReport st with ⟨trR, stR, abR⟩
  cases abR with
  | some m =>
    have hrm : runMain fuel st = (trR, Outcome.fatal ("Error enabling report: " ++ m)) := by
      simp [runMain, hR]
    rw [hrm]
    exact report_inv_of_fatal st trR stR m hR
  | none =>
    have hRb : ∀ ev ∈ trR, benign ev = true := report_benign_of_ok st trR stR hR
    rcases hS : scopeStage fuel stR with ⟨trS, stS, res⟩
    have hSb : ∀ ev ∈ trS, benign ev = true := by
      intro ev hev
      have := scope_calls fuel stR ev (by rw [hS]; exact hev)
      simp [benign, this]
    cases res with
    | none =>
      have hrm : runMain fuel st = (trR ++ trS, Outcome.stuck) := by
        simp [runMain, hR, hS]
      rw [hrm]
      exact traceInv_append trR trS _ hRb (traceInv_benign trS _ hSb)
    | some desired =>
      rcases hF : reconcileStage desired stS with ⟨trF, stF, ro⟩
      cases ro with
      | fatalErr m =>
        have hrm : runMain fuel st = (trR ++ (trS ++ trF), Outcome.fatal m) := by
          simp [runMain, hR, hS, hF]
        rw [hrm]
        exact traceInv_append trR _ _ hRb
          (traceInv_append trS trF _ hSb (reconcile_inv_of_fatal desired stS trF stF m hF))
      | skipped =>
        have hFb : ∀ ev ∈ trF, benign ev = true :=
          reconcile_benign_of_ok desired stS trF stF ReconOut.skipped hF (fun m h => by cases h)
        have hrm : runMain fuel st = (trR ++ (trS ++ trF), Outcome.ok) := by
          simp [runMain, hR, hS, hF]
        rw [hrm]
        exact traceInv_append trR _ _ hRb
          (traceInv_append trS trF _ hSb (traceInv_benign trF _ hFb))
      | applied =>
        have hFb : ∀ ev ∈ trF, benign ev = true :=
          reconcile_benign_of_ok desired stS trF stF ReconOut.applied hF (fun m h => by cases h)
        rcases hP : provisionStage stF with ⟨trP, stP, abP⟩
        cases abP with
        | some m =>
          have hrm : runMain fuel st = (trR ++ (trS ++ (trF ++ trP)), Outcome.fatal m) := by
            simp [runMain, hR, hS, hF, hP]
          rw [hrm]
          exact traceInv_append trR _ _ hRb
            (traceInv_append trS _ _ hSb
              (traceInv_append trF trP _ hFb (provision_inv_of_fatal stF trP stP m hP)))
        | none =>
          have hPb : ∀ ev ∈ trP, benign ev = true := provision_benign_of_ok stF trP stP hP
          have hrm : runMain fuel st = (trR ++ (trS ++ (trF ++ trP)), Outcome.ok) := by
            simp [runMain, hR, hS, hF, hP]
          rw [hrm]
          exact traceInv_append trR _ _ hRb
            (traceInv_append trS _ _ hSb
              (traceInv_append trF trP _ hFb (traceInv_benign trP _ hPb)))

/-- C6 counterexample: the claim covers every step's HTTP call, but a non-2xx
response to the label-catalog GET of the scope-resolution step is swallowed by
the re-prompt loop: in this run the labels GET returns 404, the run continues,
issues four further HTTP calls, and terminates normally. -/
theorem c6_counterexample :
    runMain 5 ⟨[⟨200, some ⟨true⟩, none, none⟩, ⟨404, none, none, none⟩,
        catalogOkResp [⟨"/orgs/1/labels/5", "Production "⟩],
        ⟨200, none, none, some ⟨[]⟩⟩, ⟨204, none, none, none⟩, ⟨201, none, none, none⟩],
        ["Production", "Production", "n", ""]⟩
      = ([⟨ApiCall.getReport, 200⟩, ⟨ApiCall.getLabels, 404⟩, ⟨ApiCall.getLabels, 200⟩,
          ⟨ApiCall.getFirewall, 200⟩, ⟨ApiCall.putFirewall, 204⟩, ⟨ApiCall.postProvision, 201⟩],
         Outcome.ok) := by
  decide

/-- C6 amended: for every step other than the label-catalog GET (whose non-2xx
responses are handled by re-prompting, not by aborting), an HTTP call whose
response status is outside 200..299 is the last call the run issues, and the
run terminates with a fatal error whose message contains that status code. -/
theorem c6_non2xx_fatal_abort (fuel : Nat) (st : St) (l1 : List Ev) (ev : Ev) (l2 : List Ev)
    (htr : (runMain fuel st).1 = l1 ++ ev :: l2)
    (hcall : ev.call ≠ ApiCall.getLabels)
    (hbad : is2xx ev.status = false) :
    l2 = [] ∧ FatalNames (runMain fuel st).2 ev.status :=
  runMain_traceInv fuel st l1 ev l2 htr hcall hbad

/-- C6 witness: a run whose first call (the report GET) gets a 404 stops
there, with a fatal message naming 404. -/
theorem c6_non2xx_fatal_abort_witness :
    ([] : List Ev) = []
    ∧ FatalNames (runMain 1 ⟨[⟨404, none, none, none⟩], []⟩).2 404 :=
  c6_non2xx_fatal_abort 1 ⟨[⟨404, none, none, none⟩], []⟩ [] ⟨ApiCall.getReport, 404⟩ []
    (by decide) (by decide) (by decide)
